import Mathlib

/-!
Verification of the separable blur/convolution engine specified for the
Gaffer repository snapshot, together with the `SceneReaderPathPreview.isValid`
predicate from `src/python/GafferSceneUI/SceneReaderPathPreview.py`.

The blur engine itself (the `GafferImage.Blur` node) is not part of the
snapshot; only its test `src/python/GafferImageTest/BlurTest.py` is.  The
engine is therefore modelled from the specification (sections 4.1-4.3),
with one parameter pinned by the repository's own test rather than the
spec text: `BlurTest.testExpandDataWindow` requires the data window to
expand by 2 pixels per side at radius 1, so the per-axis expansion amount
is `2 * ceil(radius)` and not the spec's `ceil(radius)`.

All image arithmetic is carried out over `ℚ`, so the energy and symmetry
properties are exact; the spec's floating tolerances (1e-4) are then
satisfied a fortiori.
-/

namespace GafferImage

/-- Modelled from the spec: discrete support half-width of the kernel for a
given continuous radius (spec section 4.1: odd tap count `2*ceil(radius)+1`
centred on the output pixel).  The engine code is missing from the snapshot;
`ceil` is taken on `ℚ` and clamped to `ℕ`. -/
def ceilNat (r : ℚ) : ℕ := (⌈r⌉).toNat

/-- Modelled from the spec: unnormalised tap weight, using the triangular
filter option left open by spec section 9 (Gaussian vs triangular/box).
The weight decays linearly from the centre and reaches zero just outside
the support, so the weight distribution varies continuously with the
radius (spec section 4.1). -/
def tentWeight (r : ℚ) (i : ℤ) : ℚ := max 0 (r + 1 - |(i : ℚ)|)

/-- Modelled from the spec: index set of the kernel taps, centred at 0. -/
def kernelSupport (r : ℚ) : Finset ℤ :=
  Finset.Icc (-(ceilNat r : ℤ)) (ceilNat r : ℤ)

/-- Modelled from the spec: total unnormalised mass of the kernel, used to
renormalise after discretisation/truncation (spec section 4.1); the taps
are enumerated the way kernel code iterates them, as offsets `j - c` for
`j = 0, ..., 2c`. -/
def kernelSum (r : ℚ) : ℚ :=
  ∑ j ∈ Finset.range (2 * ceilNat r + 1),
    tentWeight r ((j : ℤ) - (ceilNat r : ℤ))

/-- Modelled from the spec: normalised tap weight at offset `i`. -/
def normWeight (r : ℚ) (i : ℤ) : ℚ := tentWeight r i / kernelSum r

/-- Modelled from the spec: the Kernel Builder contract
`buildKernel(radius: real) -> sequence<real>` (spec section 4.1), producing
the odd-length normalised weight sequence. -/
def buildKernel (r : ℚ) : List ℚ :=
  (List.range (2 * ceilNat r + 1)).map
    (fun j : ℕ => normWeight r ((j : ℤ) - (ceilNat r : ℤ)))

/-- Modelled from the spec: horizontal pass of the separable convolver
(spec section 4.3): a weighted sum of the input row centred at the output
column.  Pixels outside the data window read 0, which the input sampler
realises by being total with background value 0. -/
def horizontalPass (input : ℤ × ℤ → ℚ) (rx : ℚ) (x y : ℤ) : ℚ :=
  ∑ j ∈ Finset.range (2 * ceilNat rx + 1),
    normWeight rx ((j : ℤ) - (ceilNat rx : ℤ)) *
      input (x - ((j : ℤ) - (ceilNat rx : ℤ)), y)

/-- Modelled from the spec: the Separable Sampler/Convolver `evaluate`
(spec section 4.3): the vertical pass convolves the vertical kernel over
the horizontal-pass intermediate rows. -/
def evaluate (input : ℤ × ℤ → ℚ) (rx ry : ℚ) (x y : ℤ) : ℚ :=
  ∑ j ∈ Finset.range (2 * ceilNat ry + 1),
    normWeight ry ((j : ℤ) - (ceilNat ry : ℤ)) *
      horizontalPass input rx x (y - ((j : ℤ) - (ceilNat ry : ℤ)))

/-- Modelled from the spec: an axis-aligned integer window (spec section 3,
Box), min corner inclusive. -/
structure Box where
  xMin : ℤ
  yMin : ℤ
  xMax : ℤ
  yMax : ℤ
deriving DecidableEq, Repr

/-- Modelled from the spec: growing a window by a per-axis margin on all
sides (min shrinks, max grows, each axis independently). -/
def growBox (b : Box) (dx dy : ℤ) : Box :=
  ⟨b.xMin - dx, b.yMin - dy, b.xMax + dx, b.yMax + dy⟩

/-- Modelled from the spec and pinned by the repository test: per-axis
window expansion amount.  `BlurTest.testExpandDataWindow` requires the data
window of a radius-1 blur to grow by 2 on every side, so the amount is
`2 * ceil(radius)` (the spec text's `ceil(radius)` does not fit the test). -/
def supportRadius (r : ℚ) : ℕ := 2 * ceilNat r

/-- Modelled from the spec: the Window Calculator contract
`computeWindows(inputDataWindow, radiusX, radiusY, expand) ->
(outputDataWindow, requiredInputWindow)` (spec section 4.2). -/
def computeWindows (b : Box) (rx ry : ℚ) (expand : Bool) : Box × Box :=
  let dx : ℤ := supportRadius rx
  let dy : ℤ := supportRadius ry
  if expand then
    (growBox b dx dy, growBox (growBox b dx dy) dx dy)
  else
    (b, growBox b dx dy)

/-- Modelled from the spec: failure taxonomy of spec section 7. -/
inductive BlurError where
  | invalidParameter
  | upstreamReadFailure
  | resourceExceeded
deriving DecidableEq, Repr

/-- Modelled from the spec: fallible Kernel Builder entry point; a negative
radius signals `InvalidParameter` (spec sections 4.1 and 7), any other
radius succeeds. -/
def buildKernelChecked (r : ℚ) : Except BlurError (List ℚ) :=
  if r < 0 then .error .invalidParameter else .ok (buildKernel r)

/-- Modelled from the spec: fallible Window Calculator entry point; a
malformed window (min > max on either axis) or a negative radius signals
`InvalidParameter` (spec section 7). -/
def computeWindowsChecked (b : Box) (rx ry : ℚ) (expand : Bool) :
    Except BlurError (Box × Box) :=
  if b.xMax < b.xMin ∨ b.yMax < b.yMin then .error .invalidParameter
  else if rx < 0 ∨ ry < 0 then .error .invalidParameter
  else .ok (computeWindows b rx ry expand)

/-- A unit-value axis-aligned square patch of size `N`x`N` with min corner
`(x0, y0)` (min inclusive, max exclusive), the image used throughout
`BlurTest`; background value 0 outside the patch. -/
def unitPatch (x0 y0 : ℤ) (N : ℕ) : ℤ × ℤ → ℚ := fun p =>
  if x0 ≤ p.1 ∧ p.1 < x0 + N ∧ y0 ≤ p.2 ∧ p.2 < y0 + N then 1 else 0

/-- One-dimensional unit indicator of the integer interval
`[a, a + N)`, the separable factor of `unitPatch`. -/
def indicator1 (a : ℤ) (N : ℕ) (x : ℤ) : ℚ :=
  if a ≤ x ∧ x < a + N then 1 else 0

/-- Sum of an image over the inclusive pixel window
`[wx0, wx1] x [wy0, wy1]`, the model of `ImageStats` integration. -/
def windowSum (f : ℤ × ℤ → ℚ) (wx0 wy0 wx1 wy1 : ℤ) : ℚ :=
  ∑ x ∈ Finset.Icc wx0 wx1, ∑ y ∈ Finset.Icc wy0 wy1, f (x, y)

/-- One-dimensional pass of the separable convolver applied to a scalar
row signal: the separable factor of `evaluate`. -/
def blur1 (r : ℚ) (g : ℤ → ℚ) (x : ℤ) : ℚ :=
  ∑ j ∈ Finset.range (2 * ceilNat r + 1),
    normWeight r ((j : ℤ) - (ceilNat r : ℤ)) * g (x - ((j : ℤ) - (ceilNat r : ℤ)))

/-- The normalised tap weight extended by zero outside the kernel support,
the value a unit impulse spreads to offset `t`. -/
def clippedWeight (r : ℚ) (t : ℤ) : ℚ :=
  if t ∈ kernelSupport r then normWeight r t else 0

/-- Holds when the list never increases from one entry to the next. -/
def nonIncreasingP : List ℚ → Prop
  | [] => True
  | [_] => True
  | x :: y :: t => y ≤ x ∧ nonIncreasingP (y :: t)

/-- Holds when the list rises (weakly) for a while and is non-increasing
from some point on: the single-peaked shape of the animated-radius curve. -/
def singlePeakedP : List ℚ → Prop
  | [] => True
  | [_] => True
  | x :: y :: t => (x ≤ y ∧ singlePeakedP (y :: t)) ∨ nonIncreasingP (x :: y :: t)

/-- Holds when no two consecutive entries differ by more than `bound` in
either direction: the discrete reading of continuity of the radius sweep. -/
def stepsBoundedP (bound : ℚ) : List ℚ → Prop
  | [] => True
  | [_] => True
  | x :: y :: t => x - y ≤ bound ∧ y - x ≤ bound ∧ stepsBoundedP bound (y :: t)

/-- The value of the fixed off-centre pixel (11, 10), one pixel to the
right of the 1x1 unit patch at (10, 10), when both blur radii are `j/5`:
the `j`-th sample of the radius sweep of `BlurTest.testBlurRange` (steps
of 0.2 driven by the loop-index expression). -/
def sweepValue (j : ℕ) : ℚ :=
  evaluate (unitPatch 10 10 1) ((j : ℚ) / 5) ((j : ℚ) / 5) 11 10

/-- The radius sweep: the off-centre pixel's value at radii 0, 0.2, ..., 5. -/
def blurSweep : List ℚ := (List.range 26).map sweepValue

end GafferImage

namespace GafferSceneUI

/-- The observable state of the path handed to
`SceneReaderPathPreview.isValid`: whether it is a `Gaffer.FileSystemPath`,
whether it is a leaf, and its string form. -/
structure PathModel where
  isFileSystemPath : Bool
  isLeaf : Bool
  pathString : String

/-- The extension of a path string, as computed by
`str( path ).split( "." )[-1]` in `SceneReaderPathPreview.isValid`: the
last dot-separated field, or the whole string when there is no dot. -/
def pathExtension (s : String) : String := (s.splitOn ".").getLastD s

/-- The supported-extension set built by `SceneReaderPathPreview.isValid`
(lines 90-94): `{"abc"}`, extended with the scene-reader extensions and
the generic object-reader extensions, with every image-reader extension
then removed ("no reason to preview a single image as a 3D scene"). -/
def supportedSet (sceneExts readerExts imageExts : Finset String) : Finset String :=
  (insert "abc" (sceneExts ∪ readerExts)) \ imageExts

/-- `SceneReaderPathPreview.isValid` (lines 83-96): false unless the path
is a leaf `FileSystemPath`; otherwise membership of the path's extension
in the supported set. -/
def isValid (p : PathModel) (sceneExts readerExts imageExts : Finset String) : Bool :=
  if ¬ p.isFileSystemPath ∨ ¬ p.isLeaf then false
  else decide (pathExtension p.pathString ∈ supportedSet sceneExts readerExts imageExts)

end GafferSceneUI

namespace GafferImage

/-! Basic facts about the ceiling half-width and the kernel mass. -/

theorem ceilNat_cast (r : ℚ) (hr : 0 ≤ r) : ((ceilNat r : ℤ)) = ⌈r⌉ := by
  simp [ceilNat, Int.toNat_of_nonneg (Int.ceil_nonneg hr)]

theorem ceilNat_zero : ceilNat 0 = 0 := by
  simp [ceilNat]

theorem ceilNat_eq (r : ℚ) (n : ℕ) (h1 : (n : ℚ) - 1 < r) (h2 : r ≤ (n : ℚ)) :
    ceilNat r = n := by
  have hceil : ⌈r⌉ = (n : ℤ) := by
    rw [Int.ceil_eq_iff]
    push_cast
    exact ⟨h1, h2⟩
  simp [ceilNat, hceil]

theorem le_ceilNat (r : ℚ) (hr : 0 ≤ r) : r ≤ (ceilNat r : ℚ) := by
  have h1 : ((ceilNat r : ℤ) : ℚ) = (⌈r⌉ : ℚ) := by
    exact_mod_cast ceilNat_cast r hr
  have h2 := Int.le_ceil r
  push_cast at h1
  linarith

theorem ceilNat_lt_add_one (r : ℚ) (hr : 0 ≤ r) : (ceilNat r : ℚ) < r + 1 := by
  have h1 : ((ceilNat r : ℤ) : ℚ) = (⌈r⌉ : ℚ) := by
    exact_mod_cast ceilNat_cast r hr
  have h2 := Int.ceil_lt_add_one r
  push_cast at h1
  linarith

theorem tentWeight_nonneg (r : ℚ) (i : ℤ) : 0 ≤ tentWeight r i :=
  le_max_left 0 _

theorem tentWeight_even (r : ℚ) (i : ℤ) : tentWeight r (-i) = tentWeight r i := by
  simp [tentWeight]

theorem tentWeight_center (r : ℚ) (hr : 0 ≤ r) : tentWeight r 0 = r + 1 := by
  simp [tentWeight]
  linarith

theorem tentWeight_one (r : ℚ) (hr : 0 ≤ r) : tentWeight r 1 = r := by
  simp [tentWeight]
  linarith

theorem zero_mem_kernelSupport (r : ℚ) : (0 : ℤ) ∈ kernelSupport r := by
  simp [kernelSupport]

/-! Bridging the iteration order of the code (tap indices `0, ..., 2c`)
with the centred index set `[-c, c]`. -/

theorem list_range_map_sum (n : ℕ) (f : ℕ → ℚ) :
    ((List.range n).map f).sum = ∑ j ∈ Finset.range n, f j := by
  induction n with
  | zero => simp
  | succ m ih =>
      rw [List.range_succ, List.map_append, List.sum_append,
        Finset.sum_range_succ, ih]
      simp

theorem sum_range_shift (c : ℕ) (f : ℤ → ℚ) :
    ∑ j ∈ Finset.range (2 * c + 1), f ((j : ℤ) - (c : ℤ)) =
      ∑ i ∈ Finset.Icc (-(c : ℤ)) (c : ℤ), f i := by
  have himg : (Finset.range (2 * c + 1)).image (fun j : ℕ => (j : ℤ) - (c : ℤ)) =
      Finset.Icc (-(c : ℤ)) (c : ℤ) := by
    ext x
    simp only [Finset.mem_image, Finset.mem_range, Finset.mem_Icc]
    constructor
    · rintro ⟨j, hj, rfl⟩
      omega
    · intro hx
      exact ⟨(x + c).toNat, by omega, by omega⟩
  rw [← himg, Finset.sum_image]
  intro a _ b _ h
  omega

theorem kernelSum_eq_Icc (r : ℚ) :
    kernelSum r = ∑ i ∈ kernelSupport r, tentWeight r i :=
  sum_range_shift (ceilNat r) (tentWeight r)

theorem horizontalPass_eq_Icc (input : ℤ × ℤ → ℚ) (rx : ℚ) (x y : ℤ) :
    horizontalPass input rx x y =
      ∑ i ∈ kernelSupport rx, normWeight rx i * input (x - i, y) :=
  sum_range_shift (ceilNat rx) (fun i => normWeight rx i * input (x - i, y))

theorem evaluate_eq_Icc (input : ℤ × ℤ → ℚ) (rx ry : ℚ) (x y : ℤ) :
    evaluate input rx ry x y =
      ∑ j ∈ kernelSupport ry, normWeight ry j * horizontalPass input rx x (y - j) :=
  sum_range_shift (ceilNat ry)
    (fun j => normWeight ry j * horizontalPass input rx x (y - j))

theorem blur1_eq_Icc (r : ℚ) (g : ℤ → ℚ) (x : ℤ) :
    blur1 r g x = ∑ i ∈ kernelSupport r, normWeight r i * g (x - i) :=
  sum_range_shift (ceilNat r) (fun i => normWeight r i * g (x - i))

/-! Normalisation of the kernel. -/

theorem kernelSum_pos (r : ℚ) (hr : 0 ≤ r) : 0 < kernelSum r := by
  rw [kernelSum_eq_Icc]
  have h0 : tentWeight r 0 ≤ ∑ i ∈ kernelSupport r, tentWeight r i := by
    refine Finset.single_le_sum (fun i _ => tentWeight_nonneg r i)
      (zero_mem_kernelSupport r)
  have hc : tentWeight r 0 = r + 1 := tentWeight_center r hr
  nlinarith

theorem normWeight_even (r : ℚ) (i : ℤ) : normWeight r (-i) = normWeight r i := by
  unfold normWeight
  rw [tentWeight_even]

theorem normWeight_nonneg (r : ℚ) (hr : 0 ≤ r) (i : ℤ) : 0 ≤ normWeight r i := by
  unfold normWeight
  exact div_nonneg (tentWeight_nonneg r i) (kernelSum_pos r hr).le

theorem normWeight_sum (r : ℚ) (hr : 0 ≤ r) :
    ∑ i ∈ kernelSupport r, normWeight r i = 1 := by
  unfold normWeight
  rw [← Finset.sum_div, ← kernelSum_eq_Icc, div_self (kernelSum_pos r hr).ne']

theorem buildKernel_sum (r : ℚ) (hr : 0 ≤ r) : (buildKernel r).sum = 1 := by
  unfold buildKernel
  rw [list_range_map_sum, sum_range_shift (ceilNat r) (normWeight r)]
  exact normWeight_sum r hr

theorem buildKernel_nonneg (r : ℚ) (hr : 0 ≤ r) : ∀ w ∈ buildKernel r, 0 ≤ w := by
  intro w hw
  unfold buildKernel at hw
  simp only [List.mem_map, List.mem_range] at hw
  obtain ⟨j, _, rfl⟩ := hw
  exact normWeight_nonneg r hr _

theorem buildKernel_length (r : ℚ) : (buildKernel r).length = 2 * ceilNat r + 1 := by
  simp [buildKernel]

theorem buildKernel_symm (r : ℚ) (i : ℕ) (hi : i ≤ 2 * ceilNat r) :
    (buildKernel r)[i]? = (buildKernel r)[2 * ceilNat r - i]? := by
  unfold buildKernel
  rw [List.getElem?_map, List.getElem?_map,
    List.getElem?_range (by omega), List.getElem?_range (by omega)]
  simp only [Option.map_some']
  congr 1
  rw [show ((2 * ceilNat r - i : ℕ) : ℤ) - (ceilNat r : ℤ) =
      -(((i : ℤ) - (ceilNat r : ℤ))) by omega]
  exact (normWeight_even r ((i : ℤ) - (ceilNat r : ℤ))).symm

theorem kernelSum_zero : kernelSum 0 = 1 := by
  simp [kernelSum, ceilNat_zero, tentWeight]

theorem normWeight_zero : normWeight 0 0 = 1 := by
  simp [normWeight, kernelSum_zero, tentWeight]

theorem buildKernel_zero : buildKernel 0 = [1] := by
  simp [buildKernel, ceilNat_zero, List.range_succ, normWeight_zero]

/-! Zero radius is a pass-through. -/

theorem evaluate_zero_radius (input : ℤ × ℤ → ℚ) (x y : ℤ) :
    evaluate input 0 0 x y = input (x, y) := by
  simp [evaluate, horizontalPass, ceilNat_zero, normWeight_zero]

theorem computeWindows_zero (b : Box) (e : Bool) :
    (computeWindows b 0 0 e).1 = b ∧ (computeWindows b 0 0 e).2 = b := by
  obtain ⟨a1, a2, a3, a4⟩ := b
  cases e <;> simp [computeWindows, growBox, supportRadius, ceilNat_zero]

end GafferImage

namespace GafferImage

/-! Separable factorisation of the convolver on a unit patch. -/

theorem unitPatch_eq_mul (x0 y0 : ℤ) (N : ℕ) (p : ℤ × ℤ) :
    unitPatch x0 y0 N p = indicator1 x0 N p.1 * indicator1 y0 N p.2 := by
  rcases p with ⟨px, py⟩
  simp only [unitPatch, indicator1]
  by_cases h1 : x0 ≤ px ∧ px < x0 + N
  · by_cases h2 : y0 ≤ py ∧ py < y0 + N
    · rw [if_pos h1, if_pos h2, if_pos ⟨h1.1, h1.2, h2.1, h2.2⟩]
      ring
    · rw [if_pos h1, if_neg h2, if_neg (by tauto)]
      ring
  · by_cases h2 : y0 ≤ py ∧ py < y0 + N
    · rw [if_neg h1, if_pos h2, if_neg (by tauto)]
      ring
    · rw [if_neg h1, if_neg h2, if_neg (by tauto)]
      ring

theorem evaluate_unitPatch (x0 y0 : ℤ) (N : ℕ) (rx ry : ℚ) (x y : ℤ) :
    evaluate (unitPatch x0 y0 N) rx ry x y =
      blur1 rx (indicator1 x0 N) x * blur1 ry (indicator1 y0 N) y := by
  have hrow : ∀ j : ℤ, horizontalPass (unitPatch x0 y0 N) rx x (y - j) =
      blur1 rx (indicator1 x0 N) x * indicator1 y0 N (y - j) := by
    intro j
    rw [horizontalPass_eq_Icc, blur1_eq_Icc, Finset.sum_mul]
    refine Finset.sum_congr rfl (fun i _ => ?_)
    rw [unitPatch_eq_mul]
    ring
  rw [evaluate_eq_Icc,
    Finset.sum_congr rfl (fun j _ => by rw [hrow j]),
    blur1_eq_Icc ry, Finset.mul_sum]
  refine Finset.sum_congr rfl (fun j _ => ?_)
  ring

theorem blur1_single (r : ℚ) (a x : ℤ) :
    blur1 r (indicator1 a 1) x = clippedWeight r (x - a) := by
  rw [blur1_eq_Icc]
  unfold clippedWeight
  have hind : ∀ i : ℤ, indicator1 a 1 (x - i) = if i = x - a then 1 else 0 := by
    intro i
    unfold indicator1
    split_ifs <;> first | rfl | omega
  rw [Finset.sum_congr rfl (fun i _ => by rw [hind i]),
    Finset.sum_congr rfl (fun i _ => by rw [mul_ite, mul_one, mul_zero]),
    Finset.sum_ite_eq' (kernelSupport r) (x - a) (normWeight r)]

theorem clippedWeight_even (r : ℚ) (t : ℤ) :
    clippedWeight r (-t) = clippedWeight r t := by
  unfold clippedWeight
  have hmem : -t ∈ kernelSupport r ↔ t ∈ kernelSupport r := by
    simp only [kernelSupport, Finset.mem_Icc]
    omega
  by_cases h : t ∈ kernelSupport r
  · rw [if_pos (hmem.mpr h), if_pos h, normWeight_even]
  · rw [if_neg (fun hc => h (hmem.mp hc)), if_neg h]

theorem evaluate_impulse (r : ℚ) (x y : ℤ) :
    evaluate (unitPatch 10 10 1) r r x y =
      clippedWeight r (x - 10) * clippedWeight r (y - 10) := by
  rw [evaluate_unitPatch, blur1_single, blur1_single]

end GafferImage

namespace GafferImage

/-! Energy preservation: summing the blurred unit patch over a window that
contains the full spread recovers the patch area. -/

theorem sum_indicator1 (a b l : ℤ) (N : ℕ) (h1 : a ≤ l) (h2 : l + N - 1 ≤ b) :
    ∑ x ∈ Finset.Icc a b, indicator1 l N x = (N : ℚ) := by
  unfold indicator1
  have hf : (Finset.Icc a b).filter (fun x => l ≤ x ∧ x < l + N) =
      Finset.Icc l (l + N - 1) := by
    ext x
    simp only [Finset.mem_filter, Finset.mem_Icc]
    omega
  rw [Finset.sum_boole, hf, Int.card_Icc,
    show l + (N : ℤ) - 1 + 1 - l = (N : ℤ) by ring, Int.toNat_natCast]

theorem sum_blur1_indicator (r : ℚ) (hr : 0 ≤ r) (l wx0 wx1 : ℤ) (N : ℕ)
    (h1 : wx0 ≤ l - (ceilNat r : ℤ)) (h2 : l + N - 1 + (ceilNat r : ℤ) ≤ wx1) :
    ∑ x ∈ Finset.Icc wx0 wx1, blur1 r (indicator1 l N) x = (N : ℚ) := by
  rw [Finset.sum_congr rfl (fun x _ => blur1_eq_Icc r (indicator1 l N) x),
    Finset.sum_comm]
  have hterm : ∀ i ∈ kernelSupport r,
      ∑ x ∈ Finset.Icc wx0 wx1, normWeight r i * indicator1 l N (x - i) =
        normWeight r i * N := by
    intro i hi
    rw [← Finset.mul_sum]
    congr 1
    have hshift : ∀ x : ℤ, indicator1 l N (x - i) = indicator1 (l + i) N x := by
      intro x
      unfold indicator1
      split_ifs <;> first | rfl | omega
    rw [Finset.sum_congr rfl (fun x _ => hshift x)]
    have hi2 : -(ceilNat r : ℤ) ≤ i ∧ i ≤ (ceilNat r : ℤ) := by
      simpa [kernelSupport, Finset.mem_Icc] using hi
    exact sum_indicator1 wx0 wx1 (l + i) N (by omega) (by omega)
  rw [Finset.sum_congr rfl hterm, ← Finset.sum_mul, normWeight_sum r hr, one_mul]

theorem windowSum_evaluate_unitPatch (x0 y0 : ℤ) (N : ℕ) (r : ℚ) (hr : 0 ≤ r)
    (wx0 wy0 wx1 wy1 : ℤ)
    (hx1 : wx0 ≤ x0 - (ceilNat r : ℤ)) (hx2 : x0 + N - 1 + (ceilNat r : ℤ) ≤ wx1)
    (hy1 : wy0 ≤ y0 - (ceilNat r : ℤ)) (hy2 : y0 + N - 1 + (ceilNat r : ℤ) ≤ wy1) :
    windowSum (fun p => evaluate (unitPatch x0 y0 N) r r p.1 p.2)
      wx0 wy0 wx1 wy1 = (N : ℚ) * (N : ℚ) := by
  unfold windowSum
  rw [Finset.sum_congr rfl (fun x _ => Finset.sum_congr rfl
    (fun y _ => evaluate_unitPatch x0 y0 N r r x y))]
  rw [← Finset.sum_mul_sum]
  rw [sum_blur1_indicator r hr x0 wx0 wx1 N hx1 hx2,
    sum_blur1_indicator r hr y0 wy0 wy1 N hy1 hy2]

end GafferImage

namespace GafferImage

/-! Closed forms used to evaluate the model at concrete radii. -/

theorem sum_abs_Icc (c : ℕ) :
    ∑ i ∈ Finset.Icc (-(c : ℤ)) (c : ℤ), |i| = (c : ℤ) * ((c : ℤ) + 1) := by
  induction c with
  | zero => simp
  | succ n ih =>
      have hset : Finset.Icc (-((n + 1 : ℕ) : ℤ)) ((n + 1 : ℕ) : ℤ) =
          insert (-((n + 1 : ℕ) : ℤ))
            (insert ((n + 1 : ℕ) : ℤ) (Finset.Icc (-(n : ℤ)) (n : ℤ))) := by
        ext x
        simp only [Finset.mem_insert, Finset.mem_Icc]
        omega
      rw [hset, Finset.sum_insert (by simp only [Finset.mem_insert, Finset.mem_Icc]; omega),
        Finset.sum_insert (by simp only [Finset.mem_Icc]; omega), ih,
        abs_neg, abs_of_nonneg (by positivity : (0 : ℤ) ≤ ((n + 1 : ℕ) : ℤ))]
      push_cast
      ring

theorem tentWeight_in_support (r : ℚ) (hr : 0 ≤ r) (i : ℤ)
    (hi : i ∈ kernelSupport r) : tentWeight r i = r + 1 - |(i : ℚ)| := by
  have hmem : -(ceilNat r : ℤ) ≤ i ∧ i ≤ (ceilNat r : ℤ) := by
    simpa [kernelSupport, Finset.mem_Icc] using hi
  have habs : |(i : ℚ)| ≤ (ceilNat r : ℚ) := by
    rw [abs_le]
    constructor
    · exact_mod_cast hmem.1
    · exact_mod_cast hmem.2
  have hlt : (ceilNat r : ℚ) < r + 1 := ceilNat_lt_add_one r hr
  unfold tentWeight
  rw [max_eq_right]
  linarith

theorem kernelSum_closed (r : ℚ) (hr : 0 ≤ r) :
    kernelSum r = (2 * (ceilNat r : ℚ) + 1) * (r + 1) -
      (ceilNat r : ℚ) * ((ceilNat r : ℚ) + 1) := by
  rw [kernelSum_eq_Icc,
    Finset.sum_congr rfl (fun i hi => tentWeight_in_support r hr i hi),
    Finset.sum_sub_distrib, Finset.sum_const]
  have hcard : (kernelSupport r).card = 2 * ceilNat r + 1 := by
    simp only [kernelSupport, Int.card_Icc]
    omega
  have habs : ∑ i ∈ kernelSupport r, |(i : ℚ)| =
      (ceilNat r : ℚ) * ((ceilNat r : ℚ) + 1) := by
    have h1 : ∑ i ∈ kernelSupport r, |(i : ℚ)| =
        ((∑ i ∈ kernelSupport r, |i| : ℤ) : ℚ) := by
      rw [Int.cast_sum]
      exact Finset.sum_congr rfl (fun i _ => by push_cast; ring)
    rw [h1, show (kernelSupport r) = Finset.Icc (-(ceilNat r : ℤ)) (ceilNat r : ℤ)
      from rfl, sum_abs_Icc]
    push_cast
    ring
  rw [habs, hcard, nsmul_eq_mul]
  push_cast
  ring

theorem clippedWeight_center (r : ℚ) (hr : 0 ≤ r) :
    clippedWeight r 0 = (r + 1) / kernelSum r := by
  unfold clippedWeight
  rw [if_pos (zero_mem_kernelSupport r)]
  unfold normWeight
  rw [tentWeight_center r hr]

theorem clippedWeight_one (r : ℚ) (hr : 0 ≤ r) (hc : 1 ≤ ceilNat r) :
    clippedWeight r 1 = r / kernelSum r := by
  unfold clippedWeight
  rw [if_pos (by simp only [kernelSupport, Finset.mem_Icc]; omega)]
  unfold normWeight
  rw [tentWeight_one r hr]

theorem sweep_closed (r : ℚ) (hr : 0 ≤ r) (hc : 1 ≤ ceilNat r) :
    evaluate (unitPatch 10 10 1) r r 11 10 = (r * (r + 1)) / (kernelSum r) ^ 2 := by
  rw [evaluate_impulse, show (11 : ℤ) - 10 = 1 by norm_num,
    show (10 : ℤ) - 10 = 0 by norm_num,
    clippedWeight_one r hr hc, clippedWeight_center r hr,
    div_mul_div_comm, sq]

end GafferImage

namespace GafferImage

/-! The 26 samples of the radius sweep, via the closed form. -/

theorem sweepValue_closed (j : ℕ) (c : ℕ)
    (hc : ceilNat ((j : ℚ) / 5) = c) (h1 : 1 ≤ c) :
    sweepValue j = (((j : ℚ) / 5) * ((j : ℚ) / 5 + 1)) /
      ((2 * (c : ℚ) + 1) * ((j : ℚ) / 5 + 1) - (c : ℚ) * ((c : ℚ) + 1)) ^ 2 := by
  unfold sweepValue
  rw [sweep_closed _ (by positivity) (hc ▸ h1),
    kernelSum_closed _ (by positivity), hc]

theorem sweepValue_0 : sweepValue 0 = 0 := by
  unfold sweepValue
  rw [show ((0 : ℕ) : ℚ) / 5 = 0 from by norm_num, evaluate_zero_radius]
  norm_num [unitPatch]

theorem sweepValue_1 : sweepValue 1 = 3 / 32 := by
  rw [sweepValue_closed 1 1 (ceilNat_eq _ 1 (by norm_num) (by norm_num)) (by norm_num)]
  norm_num

theorem sweepValue_2 : sweepValue 2 = 14 / 121 := by
  rw [sweepValue_closed 2 1 (ceilNat_eq _ 1 (by norm_num) (by norm_num)) (by norm_num)]
  norm_num

theorem sweepValue_3 : sweepValue 3 = 6 / 49 := by
  rw [sweepValue_closed 3 1 (ceilNat_eq _ 1 (by norm_num) (by norm_num)) (by norm_num)]
  norm_num

theorem sweepValue_4 : sweepValue 4 = 36 / 289 := by
  rw [sweepValue_closed 4 1 (ceilNat_eq _ 1 (by norm_num) (by norm_num)) (by norm_num)]
  norm_num

theorem sweepValue_5 : sweepValue 5 = 1 / 8 := by
  rw [sweepValue_closed 5 1 (ceilNat_eq _ 1 (by norm_num) (by norm_num)) (by norm_num)]
  norm_num

theorem sweepValue_6 : sweepValue 6 = 66 / 625 := by
  rw [sweepValue_closed 6 2 (ceilNat_eq _ 2 (by norm_num) (by norm_num)) (by norm_num)]
  norm_num

theorem sweepValue_7 : sweepValue 7 = 7 / 75 := by
  rw [sweepValue_closed 7 2 (ceilNat_eq _ 2 (by norm_num) (by norm_num)) (by norm_num)]
  norm_num

theorem sweepValue_8 : sweepValue 8 = 104 / 1225 := by
  rw [sweepValue_closed 8 2 (ceilNat_eq _ 2 (by norm_num) (by norm_num)) (by norm_num)]
  norm_num

theorem sweepValue_9 : sweepValue 9 = 63 / 800 := by
  rw [sweepValue_closed 9 2 (ceilNat_eq _ 2 (by norm_num) (by norm_num)) (by norm_num)]
  norm_num

theorem sweepValue_10 : sweepValue 10 = 2 / 27 := by
  rw [sweepValue_closed 10 2 (ceilNat_eq _ 2 (by norm_num) (by norm_num)) (by norm_num)]
  norm_num

theorem sweepValue_11 : sweepValue 11 = 11 / 169 := by
  rw [sweepValue_closed 11 3 (ceilNat_eq _ 3 (by norm_num) (by norm_num)) (by norm_num)]
  norm_num

theorem sweepValue_12 : sweepValue 12 = 204 / 3481 := by
  rw [sweepValue_closed 12 3 (ceilNat_eq _ 3 (by norm_num) (by norm_num)) (by norm_num)]
  norm_num

theorem sweepValue_13 : sweepValue 13 = 13 / 242 := by
  rw [sweepValue_closed 13 3 (ceilNat_eq _ 3 (by norm_num) (by norm_num)) (by norm_num)]
  norm_num

theorem sweepValue_14 : sweepValue 14 = 266 / 5329 := by
  rw [sweepValue_closed 14 3 (ceilNat_eq _ 3 (by norm_num) (by norm_num)) (by norm_num)]
  norm_num

theorem sweepValue_15 : sweepValue 15 = 3 / 64 := by
  rw [sweepValue_closed 15 3 (ceilNat_eq _ 3 (by norm_num) (by norm_num)) (by norm_num)]
  norm_num

theorem sweepValue_16 : sweepValue 16 = 336 / 7921 := by
  rw [sweepValue_closed 16 4 (ceilNat_eq _ 4 (by norm_num) (by norm_num)) (by norm_num)]
  norm_num

theorem sweepValue_17 : sweepValue 17 = 187 / 4802 := by
  rw [sweepValue_closed 17 4 (ceilNat_eq _ 4 (by norm_num) (by norm_num)) (by norm_num)]
  norm_num

theorem sweepValue_18 : sweepValue 18 = 414 / 11449 := by
  rw [sweepValue_closed 18 4 (ceilNat_eq _ 4 (by norm_num) (by norm_num)) (by norm_num)]
  norm_num

theorem sweepValue_19 : sweepValue 19 = 57 / 1682 := by
  rw [sweepValue_closed 19 4 (ceilNat_eq _ 4 (by norm_num) (by norm_num)) (by norm_num)]
  norm_num

theorem sweepValue_20 : sweepValue 20 = 4 / 125 := by
  rw [sweepValue_closed 20 4 (ceilNat_eq _ 4 (by norm_num) (by norm_num)) (by norm_num)]
  norm_num

theorem sweepValue_21 : sweepValue 21 = 273 / 9248 := by
  rw [sweepValue_closed 21 5 (ceilNat_eq _ 5 (by norm_num) (by norm_num)) (by norm_num)]
  norm_num

theorem sweepValue_22 : sweepValue 22 = 66 / 2401 := by
  rw [sweepValue_closed 22 5 (ceilNat_eq _ 5 (by norm_num) (by norm_num)) (by norm_num)]
  norm_num

theorem sweepValue_23 : sweepValue 23 = 161 / 6241 := by
  rw [sweepValue_closed 23 5 (ceilNat_eq _ 5 (by norm_num) (by norm_num)) (by norm_num)]
  norm_num

theorem sweepValue_24 : sweepValue 24 = 696 / 28561 := by
  rw [sweepValue_closed 24 5 (ceilNat_eq _ 5 (by norm_num) (by norm_num)) (by norm_num)]
  norm_num

theorem sweepValue_25 : sweepValue 25 = 5 / 216 := by
  rw [sweepValue_closed 25 5 (ceilNat_eq _ 5 (by norm_num) (by norm_num)) (by norm_num)]
  norm_num

theorem blurSweep_eq :
    blurSweep = [0, 3 / 32, 14 / 121, 6 / 49, 36 / 289, 1 / 8, 66 / 625, 7 / 75, 104 / 1225, 63 / 800, 2 / 27, 11 / 169, 204 / 3481, 13 / 242, 266 / 5329, 3 / 64, 336 / 7921, 187 / 4802, 414 / 11449, 57 / 1682, 4 / 125, 273 / 9248, 66 / 2401, 161 / 6241, 696 / 28561, 5 / 216] := by
  rw [blurSweep, show List.range 26 = [0, 1, 2, 3, 4, 5, 6, 7, 8, 9, 10, 11, 12, 13, 14, 15, 16, 17, 18, 19, 20, 21, 22, 23, 24, 25] from by rfl]
  simp only [List.map_cons, List.map_nil]
  rw [sweepValue_0, sweepValue_1, sweepValue_2, sweepValue_3, sweepValue_4, sweepValue_5, sweepValue_6, sweepValue_7, sweepValue_8, sweepValue_9, sweepValue_10, sweepValue_11, sweepValue_12, sweepValue_13, sweepValue_14, sweepValue_15, sweepValue_16, sweepValue_17, sweepValue_18, sweepValue_19, sweepValue_20, sweepValue_21, sweepValue_22, sweepValue_23, sweepValue_24, sweepValue_25]

end GafferImage

namespace GafferImage

/-- C1: for every unit-value square patch of size NxN and every radius
r ≥ 0, blurring with radius (r,r) (`expand=true` merely widens the data
window and does not change pixel values) yields an output whose values,
summed over any window large enough to contain the full spread of the
blur, equal N*N — exactly over ℚ, hence within the 1e-4 relative
tolerance. -/
theorem claim_C1_energy_preservation (x0 y0 : ℤ) (N : ℕ) (r : ℚ) (hr : 0 ≤ r)
    (wx0 wy0 wx1 wy1 : ℤ)
    (hx1 : wx0 ≤ x0 - (ceilNat r : ℤ)) (hx2 : x0 + N - 1 + (ceilNat r : ℤ) ≤ wx1)
    (hy1 : wy0 ≤ y0 - (ceilNat r : ℤ)) (hy2 : y0 + N - 1 + (ceilNat r : ℤ) ≤ wy1) :
    windowSum (fun p => evaluate (unitPatch x0 y0 N) r r p.1 p.2)
        wx0 wy0 wx1 wy1 = (N : ℚ) * (N : ℚ) ∧
    |windowSum (fun p => evaluate (unitPatch x0 y0 N) r r p.1 p.2)
        wx0 wy0 wx1 wy1 - (N : ℚ) * (N : ℚ)| ≤ (1 / 10000) * ((N : ℚ) * (N : ℚ)) := by
  have h := windowSum_evaluate_unitPatch x0 y0 N r hr wx0 wy0 wx1 wy1 hx1 hx2 hy1 hy2
  refine ⟨h, ?_⟩
  rw [h, sub_self, abs_zero]
  positivity

/-- Witness for C1 at the test's configuration: the 1x1 patch at (10,10),
radius 2.5, summed over the window [5,14]x[5,14]. -/
theorem claim_C1_energy_preservation_witness :
    (0 : ℚ) ≤ 5 / 2 ∧
    (5 : ℤ) ≤ 10 - (ceilNat (5 / 2) : ℤ) ∧
    (10 : ℤ) + (1 : ℕ) - 1 + (ceilNat (5 / 2) : ℤ) ≤ 14 ∧
    windowSum (fun p => evaluate (unitPatch 10 10 1) (5 / 2) (5 / 2) p.1 p.2)
      5 5 14 14 = ((1 : ℕ) : ℚ) * ((1 : ℕ) : ℚ) := by
  have hc : ceilNat (5 / 2 : ℚ) = 3 := ceilNat_eq _ 3 (by norm_num) (by norm_num)
  refine ⟨by norm_num, by rw [hc]; norm_num, by rw [hc]; norm_num, ?_⟩
  exact (claim_C1_energy_preservation 10 10 1 (5 / 2) (by norm_num) 5 5 14 14
    (by rw [hc]; norm_num) (by rw [hc]; norm_num) (by rw [hc]; norm_num)
    (by rw [hc]; norm_num)).1

/-- C2 as stated is false on the model pinned by the repository's test:
at radius 1 with `expand=true` the output window min moves by 2, not by
`ceil(1) = 1`. -/
theorem claim_C2_counterexample :
    (computeWindows ⟨0, 0, 50, 50⟩ 1 1 true).1.xMin ≠ (0 : ℤ) - ⌈(1 : ℚ)⌉ := by
  have hc : ceilNat (1 : ℚ) = 1 := ceilNat_eq _ 1 (by norm_num) (by norm_num)
  simp [computeWindows, growBox, supportRadius, hc]

/-- C2 amended: with `expand=true` the output data window grows by
`2 * ceil(r)` (not `ceil(r)`) on every side, each axis independently. -/
theorem claim_C2_expand_window_amended (b : Box) (r : ℚ) (hr : 0 ≤ r) :
    (computeWindows b r r true).1.xMin = b.xMin - 2 * ⌈r⌉ ∧
    (computeWindows b r r true).1.yMin = b.yMin - 2 * ⌈r⌉ ∧
    (computeWindows b r r true).1.xMax = b.xMax + 2 * ⌈r⌉ ∧
    (computeWindows b r r true).1.yMax = b.yMax + 2 * ⌈r⌉ := by
  have h := ceilNat_cast r hr
  simp only [computeWindows, growBox, supportRadius]
  refine ⟨?_, ?_, ?_, ?_⟩ <;> simp only [if_pos] <;> push_cast <;> omega

/-- Witness for the amended C2 at the test's radius 1. -/
theorem claim_C2_expand_window_amended_witness :
    (0 : ℚ) ≤ 1 ∧
    (computeWindows ⟨0, 0, 50, 50⟩ 1 1 true).1.xMin = 0 - 2 * ⌈(1 : ℚ)⌉ := by
  exact ⟨by norm_num, (claim_C2_expand_window_amended ⟨0, 0, 50, 50⟩ 1 (by norm_num)).1⟩

/-- C3: blurring with radius (0,0) is an exact pass-through: every pixel
of the output equals the input pixel, and the output data window equals
the input data window for either value of the expand flag. -/
theorem claim_C3_pass_through :
    (∀ input : ℤ × ℤ → ℚ, ∀ x y : ℤ, evaluate input 0 0 x y = input (x, y)) ∧
    (∀ (b : Box) (e : Bool), (computeWindows b 0 0 e).1 = b) :=
  ⟨evaluate_zero_radius, fun b e => (computeWindows_zero b e).1⟩

end GafferImage

namespace GafferImage

/-- C4: blurring the 1x1 unit patch at (10,10) with radius (1,1) gives an
output symmetric under horizontal, vertical and diagonal mirror about the
patch centre, with the centre pixel strictly brighter than the
edge-adjacent pixel, which is strictly brighter than the corner-diagonal
pixel, which is strictly positive. -/
theorem claim_C4_one_pixel_blur :
    (∀ dx dy : ℤ,
      evaluate (unitPatch 10 10 1) 1 1 (10 + dx) (10 + dy) =
        evaluate (unitPatch 10 10 1) 1 1 (10 - dx) (10 + dy) ∧
      evaluate (unitPatch 10 10 1) 1 1 (10 + dx) (10 + dy) =
        evaluate (unitPatch 10 10 1) 1 1 (10 + dx) (10 - dy) ∧
      evaluate (unitPatch 10 10 1) 1 1 (10 + dx) (10 + dy) =
        evaluate (unitPatch 10 10 1) 1 1 (10 + dy) (10 + dx)) ∧
    evaluate (unitPatch 10 10 1) 1 1 10 10 > evaluate (unitPatch 10 10 1) 1 1 11 10 ∧
    evaluate (unitPatch 10 10 1) 1 1 11 10 > evaluate (unitPatch 10 10 1) 1 1 11 11 ∧
    evaluate (unitPatch 10 10 1) 1 1 11 11 > 0 := by
  have hc : ceilNat (1 : ℚ) = 1 := ceilNat_eq _ 1 (by norm_num) (by norm_num)
  have hS : kernelSum 1 = 4 := by
    rw [kernelSum_closed 1 (by norm_num), hc]
    norm_num
  have hcw0 : clippedWeight 1 0 = 1 / 2 := by
    rw [clippedWeight_center 1 (by norm_num), hS]
    norm_num
  have hcw1 : clippedWeight 1 1 = 1 / 4 := by
    rw [clippedWeight_one 1 (by norm_num) (by simp [hc]), hS]
  constructor
  · intro dx dy
    refine ⟨?_, ?_, ?_⟩ <;> rw [evaluate_impulse, evaluate_impulse]
    · rw [show (10 : ℤ) + dx - 10 = dx by ring, show (10 : ℤ) - dx - 10 = -dx by ring,
        clippedWeight_even]
    · rw [show (10 : ℤ) + dy - 10 = dy by ring, show (10 : ℤ) - dy - 10 = -dy by ring,
        clippedWeight_even]
    · rw [mul_comm]
  · refine ⟨?_, ?_, ?_⟩
    · rw [evaluate_impulse, evaluate_impulse,
        show (10 : ℤ) - 10 = 0 from by norm_num, show (11 : ℤ) - 10 = 1 from by norm_num,
        hcw0, hcw1]
      norm_num
    · rw [evaluate_impulse, evaluate_impulse,
        show (10 : ℤ) - 10 = 0 from by norm_num, show (11 : ℤ) - 10 = 1 from by norm_num,
        hcw0, hcw1]
      norm_num
    · rw [evaluate_impulse,
        show (11 : ℤ) - 10 = 1 from by norm_num, hcw1]
      norm_num

/-- C5: for every radius ≥ 0, `buildKernel` returns a weight sequence
whose entries are non-negative, symmetric about the centre tap
(`weight[i] = weight[n-1-i]` with `n-1 = 2*ceil(r)`), and summing to
exactly 1; radius 0 yields the single-tap kernel `[1]`. -/
theorem claim_C5_buildKernel_guarantees (r : ℚ) (hr : 0 ≤ r) :
    (∀ w ∈ buildKernel r, 0 ≤ w) ∧
    (buildKernel r).length = 2 * ceilNat r + 1 ∧
    (∀ i : ℕ, i ≤ 2 * ceilNat r →
      (buildKernel r)[i]? = (buildKernel r)[2 * ceilNat r - i]?) ∧
    (buildKernel r).sum = 1 ∧
    buildKernel 0 = [1] :=
  ⟨buildKernel_nonneg r hr, buildKernel_length r,
    fun i hi => buildKernel_symm r i hi, buildKernel_sum r hr, buildKernel_zero⟩

/-- Witness for C5 at the fractional radius 3/2. -/
theorem claim_C5_buildKernel_guarantees_witness :
    (0 : ℚ) ≤ 3 / 2 ∧ (buildKernel (3 / 2)).sum = 1 :=
  ⟨by norm_num, (claim_C5_buildKernel_guarantees (3 / 2) (by norm_num)).2.2.2.1⟩

/-- C6: with the expand flag off the output data window equals the input
data window exactly, for every radius, while the required input window is
still the input window grown by the support margin on all sides. -/
theorem claim_C6_no_expand_keeps_window (b : Box) (rx ry : ℚ) :
    (computeWindows b rx ry false).1 = b ∧
    (computeWindows b rx ry false).2 =
      growBox b (supportRadius rx) (supportRadius ry) :=
  ⟨rfl, rfl⟩

/-- C7: a negative radius is rejected with `InvalidParameter`; every
non-negative radius, however large, succeeds and the kernel stays correct
(normalised, non-negative); a malformed window with min > max on either
axis is likewise rejected with `InvalidParameter`. -/
theorem claim_C7_error_handling :
    (∀ r : ℚ, r < 0 → buildKernelChecked r = .error .invalidParameter) ∧
    (∀ r : ℚ, 0 ≤ r → buildKernelChecked r = .ok (buildKernel r) ∧
      (buildKernel r).sum = 1 ∧ (∀ w ∈ buildKernel r, 0 ≤ w)) ∧
    (∀ (b : Box) (rx ry : ℚ) (e : Bool), b.xMax < b.xMin ∨ b.yMax < b.yMin →
      computeWindowsChecked b rx ry e = .error .invalidParameter) := by
  refine ⟨?_, ?_, ?_⟩
  · intro r h
    simp [buildKernelChecked, h]
  · intro r h
    exact ⟨by simp [buildKernelChecked, not_lt.mpr h],
      buildKernel_sum r h, buildKernel_nonneg r h⟩
  · intro b rx ry e h
    simp [computeWindowsChecked, h]

/-- Witness for C7: radius -1 is rejected, radius 2 succeeds with a
normalised kernel, and a window whose x max is below its x min is
rejected. -/
theorem claim_C7_error_handling_witness :
    ((-1 : ℚ) < 0 ∧ buildKernelChecked (-1) = .error .invalidParameter) ∧
    ((0 : ℚ) ≤ 2 ∧ buildKernelChecked 2 = .ok (buildKernel 2) ∧
      (buildKernel 2).sum = 1) ∧
    ((-1 : ℤ) < (0 : ℤ) ∧
      computeWindowsChecked ⟨0, 5, -1, 9⟩ 1 1 false = .error .invalidParameter) :=
  ⟨⟨by norm_num, claim_C7_error_handling.1 (-1) (by norm_num)⟩,
    ⟨by norm_num, (claim_C7_error_handling.2.1 2 (by norm_num)).1,
      (claim_C7_error_handling.2.1 2 (by norm_num)).2.1⟩,
    ⟨by norm_num, claim_C7_error_handling.2.2 ⟨0, 5, -1, 9⟩ 1 1 false
      (Or.inl (by norm_num))⟩⟩

/-- C8: the off-centre pixel's value across the radius sweep 0, 0.2, ...,
5 rises to a single peak (at radius 1) and then falls, with no step
between consecutive radii exceeding 1/10. -/
theorem claim_C8_blur_range_single_peaked :
    singlePeakedP blurSweep ∧ stepsBoundedP (1 / 10) blurSweep := by
  rw [blurSweep_eq]
  norm_num [singlePeakedP, nonIncreasingP, stepsBoundedP]

end GafferImage

namespace GafferSceneUI

/-- C10: `SceneReaderPathPreview.isValid` returns false for every path
that is not a leaf `FileSystemPath`; it returns false for every path
whose extension is a supported image-reader extension, even when the
generic object reader also supports that extension; and it returns true
exactly when the path is a leaf `FileSystemPath` whose extension lies in
the supported scene/object set (abc + scene-reader + object-reader
extensions minus image-reader extensions). -/
theorem claim_C10_isValid (p : PathModel)
    (sceneExts readerExts imageExts : Finset String) :
    ((¬ p.isFileSystemPath ∨ ¬ p.isLeaf) →
      isValid p sceneExts readerExts imageExts = false) ∧
    (pathExtension p.pathString ∈ imageExts →
      isValid p sceneExts readerExts imageExts = false) ∧
    (isValid p sceneExts readerExts imageExts = true ↔
      (p.isFileSystemPath ∧ p.isLeaf ∧
        pathExtension p.pathString ∈ supportedSet sceneExts readerExts imageExts)) := by
  refine ⟨?_, ?_, ?_⟩
  · intro h
    unfold isValid
    rw [if_pos h]
  · intro h
    unfold isValid
    split_ifs with hp
    · rfl
    · simp [supportedSet, h]
  · unfold isValid
    split_ifs with hp
    · constructor
      · intro hf
        exact absurd hf (by simp)
      · rintro ⟨h1, h2, -⟩
        exact absurd hp (by simp [h1, h2])
    · push_neg at hp
      simp only [decide_eq_true_eq]
      constructor
      · intro hm
        exact ⟨hp.1, hp.2, hm⟩
      · rintro ⟨-, -, hm⟩
        exact hm

/-- Witness for C10: a non-`FileSystemPath` path is rejected, and a path
whose extension is among the image-reader extensions is rejected even
though the object reader's set also holds that extension. -/
theorem claim_C10_isValid_witness :
    ((¬ (PathModel.mk false true "scene.scc").isFileSystemPath ∨
       ¬ (PathModel.mk false true "scene.scc").isLeaf) ∧
      isValid (PathModel.mk false true "scene.scc") {"scc"} {"cob"} {"exr"} = false) ∧
    (pathExtension "img.exr" ∈ ({pathExtension "img.exr"} : Finset String) ∧
      isValid (PathModel.mk true true "img.exr") {"scc"}
        {pathExtension "img.exr"} {pathExtension "img.exr"} = false) :=
  ⟨⟨Or.inl (by simp), (claim_C10_isValid (PathModel.mk false true "scene.scc")
      {"scc"} {"cob"} {"exr"}).1 (Or.inl (by simp))⟩,
    ⟨Finset.mem_singleton_self _, (claim_C10_isValid (PathModel.mk true true "img.exr")
      {"scc"} {pathExtension "img.exr"} {pathExtension "img.exr"}).2.1
      (Finset.mem_singleton_self _)⟩⟩

end GafferSceneUI
